import Mathlib

/-!
Verification of the sector-dashboard program (`display.py`).

The program loads a table of daily stock observations (from a CSV cache or
from a SQL warehouse), enriches it with per-ticker beta coefficients fetched
from an external market-data service, cleans it (deduplicate by
(ticker, date), drop rows with null price or shares outstanding, derive
market cap), and serves a dashboard with two dropdown callbacks.

Tables are embedded as lists of rows; nullable (NaN-able) columns are
`Option ℚ`; dates are abstracted as `Int`.  The external beta service is a
function `String → Except String (Option ℚ)`: `.error` models a raised
exception, `.ok none` models a response without a "beta" field.
-/

set_option autoImplicit false

namespace Dashboard

/-- A raw observation row, as read from the cache CSV or the warehouse:
columns ticker, date, stock_price, shrout, volume. -/
structure Row where
  ticker : String
  date : Int
  stock_price : Option ℚ
  shrout : Option ℚ
  volume : Option ℚ
deriving DecidableEq, Repr

/-- A row after the market_cap column has been added. -/
structure RowMC where
  ticker : String
  date : Int
  stock_price : Option ℚ
  shrout : Option ℚ
  volume : Option ℚ
  market_cap : Option ℚ
deriving DecidableEq, Repr

/-- A fully cleaned row: all columns of `RowMC` plus the merged beta. -/
structure CleanRow where
  ticker : String
  date : Int
  stock_price : Option ℚ
  shrout : Option ℚ
  volume : Option ℚ
  market_cap : Option ℚ
  beta : Option ℚ
deriving DecidableEq, Repr

/-- One row of the DataFrame returned by `fetch_betas`. -/
structure BetaRow where
  ticker : String
  beta : Option ℚ
deriving DecidableEq, Repr

/-- `data["ticker"].unique()` / first-occurrence deduplication, with an
accumulator of already-seen elements. -/
def dedupFirstAux {α : Type} [DecidableEq α] (seen : List α) : List α → List α
  | [] => []
  | x :: xs =>
    if x ∈ seen then dedupFirstAux seen xs
    else x :: dedupFirstAux (x :: seen) xs

/-- First-occurrence deduplication of a list (pandas `unique`). -/
def dedupFirst {α : Type} [DecidableEq α] (xs : List α) : List α :=
  dedupFirstAux [] xs

/-- The (ticker, date) key a row is deduplicated by. -/
def Row.key (r : Row) : String × Int := (r.ticker, r.date)

/-- `data.drop_duplicates(subset=["ticker", "date"])`: keep the first row for
each (ticker, date) pair, preserving order. -/
def dropDuplicatesAux (seen : List (String × Int)) : List Row → List Row
  | [] => []
  | r :: rs =>
    if r.key ∈ seen then dropDuplicatesAux seen rs
    else r :: dropDuplicatesAux (r.key :: seen) rs

/-- Deduplication as invoked in `clean_data` (no keys seen yet). -/
def dropDuplicates (rows : List Row) : List Row :=
  dropDuplicatesAux [] rows

/-- Outcome of `stock.info.get("beta", None)` inside the try/except:
an exception yields `None`, otherwise the (possibly absent) field value. -/
def betaResult (svc : String → Except String (Option ℚ)) (t : String) : Option ℚ :=
  match svc t with
  | .ok b => b
  | .error _ => none

/-- One step of building the `beta_values` dict: `beta_values[ticker] = beta`
(overwrite in place if the key exists, else append in insertion order). -/
def insertBeta (d : List BetaRow) (t : String) (b : Option ℚ) : List BetaRow :=
  if d.any (fun r => r.ticker == t) then
    d.map (fun r => if r.ticker == t then ⟨t, b⟩ else r)
  else d ++ [⟨t, b⟩]

/-- `fetch_betas(tickers)`: for each ticker, look up its beta (an exception
or a missing field records `None`) and return the dict as a two-column
DataFrame in key insertion order. -/
def fetch_betas (svc : String → Except String (Option ℚ)) (tickers : List String) :
    List BetaRow :=
  tickers.foldl (fun d t => insertBeta d t (betaResult svc t)) []

/-- `data["market_cap"] = data["stock_price"] * data["shrout"] * 1000`
(null in either factor propagates to a null product). -/
def addMarketCap (r : Row) : RowMC :=
  { ticker := r.ticker, date := r.date, stock_price := r.stock_price,
    shrout := r.shrout, volume := r.volume,
    market_cap := do
      let p ← r.stock_price
      let s ← r.shrout
      pure (p * s * 1000) }

/-- A merged output row: the left row's columns plus a beta value. -/
def mkClean (r : RowMC) (b : Option ℚ) : CleanRow :=
  { ticker := r.ticker, date := r.date, stock_price := r.stock_price,
    shrout := r.shrout, volume := r.volume, market_cap := r.market_cap,
    beta := b }

/-- The merge result for one left row: one output row per matching beta row,
or a single row with a null beta if no beta row matches. -/
def mergeRow (betas : List BetaRow) (r : RowMC) : List CleanRow :=
  match betas.filter (fun b => b.ticker == r.ticker) with
  | [] => [mkClean r none]
  | ms => ms.map (fun b => mkClean r b.beta)

/-- `pd.merge(data, betas, on="ticker", how="left")`: every left row is kept;
it is paired with each matching beta row, or with a null beta if none match. -/
def leftMerge (rows : List RowMC) (betas : List BetaRow) : List CleanRow :=
  rows.flatMap (mergeRow betas)

/-- The first three lines of `clean_data`: deduplicate by (ticker, date),
drop rows with null stock_price or shrout, derive market_cap. -/
def prepare (data : List Row) : List RowMC :=
  ((dropDuplicates data).filter
      (fun r => r.stock_price.isSome && r.shrout.isSome)).map addMarketCap

/-- `data["ticker"].unique()` as computed inside `clean_data`. -/
def tickersOf (data : List Row) : List String :=
  dedupFirst ((prepare data).map (fun r => r.ticker))

/-- `clean_data(data)`: deduplicate, drop nulls, derive market_cap, fetch a
beta per distinct ticker, and left-merge the betas onto the table. -/
def clean_data (svc : String → Except String (Option ℚ)) (data : List Row) :
    List CleanRow :=
  leftMerge (prepare data) (fetch_betas svc (tickersOf data))

/-! Section: Static configuration and the Dash callbacks -/

/-- The static `SECTOR_TICKERS` dict, in source order. -/
def SECTOR_TICKERS : List (String × List String) :=
  [("Technology",
      ["AAPL", "MSFT", "GOOG", "NVDA", "AMD", "ORCL", "CRM", "ADBE", "INTC", "HPQ"]),
   ("Healthcare",
      ["JNJ", "PFE", "MRK", "LLY", "ABT", "TMO", "BMY", "AMGN", "CVS", "GILD"]),
   ("Energy",
      ["XOM", "CVX", "BP", "TOT", "COP", "ENB", "EOG", "KMI", "SLB", "OXY"]),
   ("Finance",
      ["JPM", "BAC", "C", "WFC", "GS", "MS", "SCHW", "AXP", "USB", "TD"]),
   ("Consumer Discretionary",
      ["TSLA", "AMZN", "HD", "MCD", "NKE", "SBUX", "DIS", "BKNG", "LOW", "TGT"]),
   ("Consumer Staples",
      ["PG", "KO", "PEP", "WMT", "COST", "MDLZ", "CL", "KHC", "KR", "TAP"]),
   ("Industrials",
      ["MMM", "HON", "GE", "BA", "CAT", "RTX", "LMT", "DE", "UPS", "FDX"]),
   ("Utilities",
      ["NEE", "DUK", "SO", "AEP", "EXC", "SRE", "D", "PEG", "ED", "XEL"]),
   ("Real Estate",
      ["AMT", "PLD", "CCI", "EQIX", "SPG", "PSA", "O", "WELL", "VTR", "HST"]),
   ("Materials",
      ["LIN", "APD", "SHW", "ECL", "NUE", "DOW", "DD", "FCX", "ALB", "CE"])]

/-- `SECTOR_TICKERS[sector]` as a partial lookup (a missing key is the
KeyError case). -/
def sectorLookup (sector : String) : Option (List String) :=
  SECTOR_TICKERS.lookup sector

/-- `list(SECTOR_TICKERS.keys())[0]`: the sector dropdown's initial value in
the layout. -/
def defaultSectorValue : String :=
  ((SECTOR_TICKERS.map Prod.fst).headD "")

/-- One entry of a Dash dropdown's `options` list. -/
structure DDOption where
  label : String
  value : String
deriving DecidableEq, Repr

/-- The `update_ticker_dropdown` callback: one option per ticker of the
selected sector (KeyError on an unknown sector). -/
def update_ticker_dropdown (sector : String) : Except String (List DDOption) :=
  match sectorLookup sector with
  | none => .error "KeyError"
  | some members => .ok (members.map (fun t => ⟨t, t⟩))

/-- Mean of a list of rationals; `none` models pandas' NaN mean of an empty
(or all-NaN) column. -/
def omean (xs : List ℚ) : Option ℚ :=
  match xs with
  | [] => none
  | _ => some (xs.sum / (xs.length : ℚ))

/-- Mean of a nonempty group (pandas group means are over nonempty groups). -/
def meanD (xs : List ℚ) : ℚ :=
  (omean xs).getD 0

/-- The three sector averages shown in the `sector-averages` panel. -/
structure Averages where
  market_cap : Option ℚ
  stock_price : Option ℚ
  beta : Option ℚ
deriving DecidableEq, Repr

/-- A rendered Plotly figure, abstracted: the Python callback returns the
empty dict for "no figure", `px.line` for the trend and `px.bar` for the
comparison. -/
inductive Figure where
  | empty : Figure
  | line (pts : List (String × Int × ℚ)) : Figure
  | bar (bars : List (String × ℚ)) : Figure
deriving DecidableEq, Repr

/-- The full return value of `update_dashboard`: the averages panel, the
per-ticker beta table (absent when no tickers are selected), and the two
figures. -/
structure DashOutput where
  averages : Averages
  betaRows : Option (List (String × Option ℚ))
  trend : Figure
  comparison : Figure
deriving DecidableEq, Repr

/-- `data[data["ticker"].isin(sector_tickers)]`. -/
def sectorData (table : List CleanRow) (sts : List String) : List CleanRow :=
  table.filter (fun r => sts.contains r.ticker)

/-- The sector averages: column means with pandas NaN-skipping. -/
def mkAverages (sd : List CleanRow) : Averages :=
  { market_cap := omean (sd.filterMap (fun r => r.market_cap)),
    stock_price := omean (sd.filterMap (fun r => r.stock_price)),
    beta := omean (sd.filterMap (fun r => r.beta)) }

/-- One row of `selected_data.groupby(['ticker', 'date']).agg(mean)`. -/
structure Grp where
  ticker : String
  date : Int
  stock_price : ℚ
  market_cap : ℚ
deriving DecidableEq, Repr

/-- `groupby(['ticker', 'date']).agg(mean of stock_price, market_cap)`,
keys in first-appearance order (pandas sorts group keys; key order is not
relevant to any property proved here). -/
def groupbyTickerDate (rows : List CleanRow) : List Grp :=
  (dedupFirst (rows.map (fun r => (r.ticker, r.date)))).map (fun k =>
    { ticker := k.1, date := k.2,
      stock_price := meanD
        ((rows.filter (fun r => r.ticker == k.1 && r.date == k.2)).filterMap
          (fun r => r.stock_price)),
      market_cap := meanD
        ((rows.filter (fun r => r.ticker == k.1 && r.date == k.2)).filterMap
          (fun r => r.market_cap)) })

/-- `selected_data.groupby("ticker").mean()` restricted to the market_cap
column driving the bar chart. -/
def groupbyTicker (gs : List Grp) : List (String × ℚ) :=
  (dedupFirst (gs.map (fun g => g.ticker))).map (fun t =>
    (t, meanD ((gs.filter (fun g => g.ticker == t)).map (fun g => g.market_cap))))

/-- Whether the merged beta column has object dtype.  `DataFrame.from_dict`
leaves the `beta` column object-dtype exactly when every fetched value is
`None`; the left merge preserves the dtype (every ticker of the table has a
beta row), so in the cleaned table a missing beta cell is the Python `None`
object precisely when every row's beta is missing — otherwise the column is
float64 and missing cells are the float NaN. -/
def betaColumnObject (table : List CleanRow) : Bool :=
  table.all (fun r => r.beta.isNone)

/-- The beta-table comprehension: for each selected ticker, format
`sector_data[sector_data['ticker'] == ticker]['beta'].iloc[0]` with `.2f`.
The positional access on an empty selection raises IndexError; formatting the
cell raises TypeError when it holds the `None` object (object-dtype column,
i.e. every beta lookup failed), while a float NaN cell formats as "nan". -/
def betaTable (objectCol : Bool) (sd : List CleanRow) : List String →
    Except String (List (String × Option ℚ))
  | [] => .ok []
  | t :: ts =>
    match sd.filter (fun r => r.ticker == t) with
    | [] => .error "IndexError: single positional indexer is out-of-bounds"
    | r :: _ =>
      if objectCol && r.beta.isNone then
        .error "TypeError: unsupported format string passed to NoneType.__format__"
      else (betaTable objectCol sd ts).map (fun rest => (t, r.beta) :: rest)

/-- The `update_dashboard` callback.  `sel = none` models Dash passing `None`
before any ticker selection; `if not selected_tickers` treats `None` and the
empty list alike. -/
def update_dashboard (table : List CleanRow) (sector : String)
    (sel : Option (List String)) : Except String DashOutput :=
  match sectorLookup sector with
  | none => .error "KeyError"
  | some sts =>
    let sd := sectorData table sts
    let averages := mkAverages sd
    match sel.getD [] with
    | [] => .ok ⟨averages, none, .empty, .empty⟩
    | t :: ts =>
      let selected := sd.filter (fun r => (t :: ts).contains r.ticker)
      let grouped := groupbyTickerDate selected
      let trend := Figure.line (grouped.map (fun g => (g.ticker, g.date, g.stock_price)))
      let comparison := Figure.bar (groupbyTicker grouped)
      match betaTable (betaColumnObject table) sd (t :: ts) with
      | .error e => .error e
      | .ok bt => .ok ⟨averages, some bt, trend, comparison⟩

/-! Section: Startup: data acquisition, caching and effects -/

/-- An observable side effect of startup.  `betaLookup` and the warehouse
effects touch the network; the cache effects are local file I/O. -/
inductive Effect where
  | cacheRead : Effect
  | warehouseConnect : Effect
  | warehouseQuery : Effect
  | cacheWrite : Effect
  | betaLookup (t : String) : Effect
deriving DecidableEq, Repr

/-- Whether an effect is a network call. -/
def networkEffect : Effect → Bool
  | .cacheRead => false
  | .cacheWrite => false
  | .warehouseConnect => true
  | .warehouseQuery => true
  | .betaLookup _ => true

/-- The environment a run starts in: the cache file's contents (if the file
exists), what the warehouse queries would produce, and the beta service. -/
structure Env where
  cache : Option (List Row)
  warehouse : List Row
  svc : String → Except String (Option ℚ)

/-- `get_or_download_data()`: read the cache if the file exists; otherwise
connect to the warehouse, run the two queries, and write the cache. -/
def get_or_download_data (env : Env) : List Row × List Effect :=
  match env.cache with
  | some rows => (rows, [.cacheRead])
  | none =>
    (env.warehouse,
     [.warehouseConnect, .warehouseQuery, .warehouseQuery, .cacheWrite])

/-- The module-level startup: `data = get_or_download_data()` followed by
`data = clean_data(data)`, with the effect trace of both (cleaning performs
one beta lookup per distinct ticker). -/
def runStartup (env : Env) : List CleanRow × List Effect :=
  let acquired := get_or_download_data env
  (clean_data env.svc acquired.1,
   acquired.2 ++ (tickersOf acquired.1).map Effect.betaLookup)

/-- Whether an `Except` computation completed without raising. -/
def isOkE {ε α : Type} : Except ε α → Bool
  | .ok _ => true
  | .error _ => false

/-- The observation columns of a cleaned row, with the merged beta removed. -/
def eraseBeta (r : CleanRow) : RowMC :=
  { ticker := r.ticker, date := r.date, stock_price := r.stock_price,
    shrout := r.shrout, volume := r.volume, market_cap := r.market_cap }

/-! Section: Concrete sample inputs used to instantiate the theorems -/

/-- A beta service that answers every ticker with the same beta field. -/
def svcConst (b : Option ℚ) : String → Except String (Option ℚ) :=
  fun _ => .ok b

/-- A beta service whose every lookup raises. -/
def svcFail : String → Except String (Option ℚ) :=
  fun _ => .error "HTTPError"

/-- A sample raw observation row. -/
def sampleRow : Row :=
  { ticker := "AAPL", date := 0, stock_price := some 10, shrout := some 5,
    volume := some 100 }

/-- A second observation of the same ticker on another date. -/
def sampleRow2 : Row :=
  { ticker := "AAPL", date := 1, stock_price := some 12, shrout := some 5,
    volume := some 80 }

/-- A sample raw table. -/
def sampleData : List Row :=
  [sampleRow, sampleRow2]

/-- The cleaned row that `sampleRow` becomes when every beta lookup answers 1. -/
def sampleCleanRow : CleanRow :=
  { ticker := "AAPL", date := 0, stock_price := some 10, shrout := some 5,
    volume := some 100, market_cap := some (10 * 5 * 1000), beta := some 1 }

/-- The cleaned row that `sampleRow2` becomes when every beta lookup answers 1. -/
def sampleCleanRow2 : CleanRow :=
  { ticker := "AAPL", date := 1, stock_price := some 12, shrout := some 5,
    volume := some 80, market_cap := some (12 * 5 * 1000), beta := some 1 }

/-- `sampleRow` cleaned when every beta lookup raises. -/
def cachedCleanFail : CleanRow :=
  { ticker := "AAPL", date := 0, stock_price := some 10, shrout := some 5,
    volume := some 100, market_cap := some (10 * 5 * 1000), beta := none }

/-- `sampleRow` cleaned when every beta lookup answers 2. -/
def cachedClean2 : CleanRow :=
  { ticker := "AAPL", date := 0, stock_price := some 10, shrout := some 5,
    volume := some 100, market_cap := some (10 * 5 * 1000), beta := some 2 }

/-- A sample cleaned table for the callback theorems. -/
def sampleTable : List CleanRow :=
  [{ ticker := "AAPL", date := 0, stock_price := some 10, shrout := some 5,
     volume := some 100, market_cap := some 50000, beta := some 1 }]

/-- An environment whose cache file exists; every beta lookup raises. -/
def env1 : Env :=
  { cache := some [sampleRow], warehouse := [], svc := svcFail }

/-- Same cache as `env1`, but the beta service answers 2. -/
def env2 : Env :=
  { cache := some [sampleRow], warehouse := [], svc := svcConst (some 2) }

/-- The member list of the first sector, as written in `SECTOR_TICKERS`. -/
def techTickers : List String :=
  ["AAPL", "MSFT", "GOOG", "NVDA", "AMD", "ORCL", "CRM", "ADBE", "INTC", "HPQ"]

/-! Section: Basic lemmas about the cleaning pipeline -/

theorem mem_dedupFirstAux {α : Type} [DecidableEq α] (seen : List α) (xs : List α)
    (x : α) : x ∈ dedupFirstAux seen xs ↔ x ∈ xs ∧ x ∉ seen := by
  induction xs generalizing seen with
  | nil => simp [dedupFirstAux]
  | cons y ys ih =>
    simp only [dedupFirstAux]
    by_cases h : y ∈ seen
    · rw [if_pos h, ih, List.mem_cons]
      constructor
      · exact fun hx => ⟨Or.inr hx.1, hx.2⟩
      · rintro ⟨rfl | hx, hns⟩
        · exact absurd h hns
        · exact ⟨hx, hns⟩
    · rw [if_neg h]
      simp only [List.mem_cons, ih]
      constructor
      · rintro (rfl | ⟨hx, hns⟩)
        · exact ⟨Or.inl rfl, h⟩
        · exact ⟨Or.inr hx, fun hs => hns (Or.inr hs)⟩
      · rintro ⟨rfl | hx, hns⟩
        · exact Or.inl rfl
        · by_cases hxy : x = y
          · exact Or.inl hxy
          · exact Or.inr ⟨hx, fun hs => hs.elim hxy hns⟩

theorem mem_dedupFirst {α : Type} [DecidableEq α] (xs : List α) (x : α) :
    x ∈ dedupFirst xs ↔ x ∈ xs := by
  simp [dedupFirst, mem_dedupFirstAux]

theorem nodup_dedupFirstAux {α : Type} [DecidableEq α] (seen : List α)
    (xs : List α) : (dedupFirstAux seen xs).Nodup := by
  induction xs generalizing seen with
  | nil => simp [dedupFirstAux]
  | cons y ys ih =>
    simp only [dedupFirstAux]
    by_cases h : y ∈ seen
    · rw [if_pos h]; exact ih seen
    · rw [if_neg h, List.nodup_cons]
      refine ⟨fun hy => ?_, ih _⟩
      exact ((mem_dedupFirstAux _ _ _).1 hy).2 (List.mem_cons_self y seen)

theorem nodup_dedupFirst {α : Type} [DecidableEq α] (xs : List α) :
    (dedupFirst xs).Nodup :=
  nodup_dedupFirstAux [] xs

theorem insertBeta_not_mem (d : List BetaRow) (t : String) (b : Option ℚ)
    (h : ∀ r ∈ d, r.ticker ≠ t) : insertBeta d t b = d ++ [⟨t, b⟩] := by
  have hc : d.any (fun r => r.ticker == t) = false := by
    rw [List.any_eq_false]
    intro r hr
    simpa using h r hr
  simp [insertBeta, hc]

theorem foldl_insertBeta (svc : String → Except String (Option ℚ))
    (ts : List String) (d : List BetaRow) (h : ts.Nodup)
    (hd : ∀ r ∈ d, r.ticker ∉ ts) :
    ts.foldl (fun d t => insertBeta d t (betaResult svc t)) d
      = d ++ ts.map (fun t => ⟨t, betaResult svc t⟩) := by
  induction ts generalizing d with
  | nil => simp
  | cons t ts ih =>
    obtain ⟨htn, hnd⟩ := List.nodup_cons.1 h
    simp only [List.foldl_cons]
    rw [insertBeta_not_mem d t _
      (fun r hr e => hd r hr (e ▸ List.mem_cons_self t ts))]
    have hd2 : ∀ r ∈ d ++ [(⟨t, betaResult svc t⟩ : BetaRow)], r.ticker ∉ ts := by
      intro r hr
      rcases List.mem_append.1 hr with h1 | h2
      · exact fun hm => hd r h1 (List.mem_cons_of_mem _ hm)
      · simp only [List.mem_singleton] at h2
        subst h2
        exact htn
    rw [ih _ hnd hd2]
    simp

theorem fetch_betas_eq_map (svc : String → Except String (Option ℚ))
    (ts : List String) (h : ts.Nodup) :
    fetch_betas svc ts = ts.map (fun t => ⟨t, betaResult svc t⟩) := by
  simpa using foldl_insertBeta svc ts [] h (by simp)

theorem filter_map_betas_nil (svc : String → Except String (Option ℚ))
    (ks : List String) (t : String) (ht : t ∉ ks) :
    (ks.map (fun k => BetaRow.mk k (betaResult svc k))).filter
        (fun b => b.ticker == t) = [] := by
  rw [List.filter_eq_nil_iff]
  intro b hb
  rcases List.mem_map.1 hb with ⟨k, hk, rfl⟩
  simp only [beq_iff_eq]
  intro e
  exact ht (e ▸ hk)

theorem filter_map_betas (svc : String → Except String (Option ℚ))
    (ks : List String) (t : String) (hk : ks.Nodup) (ht : t ∈ ks) :
    (ks.map (fun k => BetaRow.mk k (betaResult svc k))).filter
        (fun b => b.ticker == t) = [⟨t, betaResult svc t⟩] := by
  induction ks with
  | nil => cases ht
  | cons k ks ih =>
    obtain ⟨hkn, hnd⟩ := List.nodup_cons.1 hk
    rcases List.mem_cons.1 ht with rfl | hmem
    · simp only [List.map_cons, List.filter_cons, beq_self_eq_true, if_pos]
      rw [filter_map_betas_nil svc ks t hkn]
    · have hne : k ≠ t := fun e => hkn (e ▸ hmem)
      simp only [List.map_cons, List.filter_cons]
      rw [if_neg (by simpa using hne)]
      exact ih hnd hmem

theorem leftMerge_eq_map (rows : List RowMC) (betas : List BetaRow)
    (f : String → Option ℚ)
    (h : ∀ r ∈ rows,
      betas.filter (fun b => b.ticker == r.ticker) = [⟨r.ticker, f r.ticker⟩]) :
    leftMerge rows betas = rows.map (fun r => mkClean r (f r.ticker)) := by
  induction rows with
  | nil => rfl
  | cons r rs ih =>
    simp only [leftMerge, List.flatMap_cons, List.map_cons]
    rw [show mergeRow betas r = [mkClean r (f r.ticker)] by
      simp [mergeRow, h r (List.mem_cons_self r rs)]]
    rw [show rs.flatMap (mergeRow betas) = leftMerge rs betas from rfl,
      ih (fun x hx => h x (List.mem_cons_of_mem r hx))]
    rfl

/-- Normal form of `clean_data`: since the merged-in beta table has exactly one
row per distinct ticker of the prepared table, the left merge degenerates to
annotating each prepared row with the beta looked up for its ticker. -/
theorem clean_data_eq_map (svc : String → Except String (Option ℚ))
    (data : List Row) :
    clean_data svc data
      = (prepare data).map (fun r => mkClean r (betaResult svc r.ticker)) := by
  unfold clean_data
  apply leftMerge_eq_map
  intro r hr
  have hnd : (tickersOf data).Nodup := nodup_dedupFirst _
  rw [fetch_betas_eq_map svc (tickersOf data) hnd]
  have hmem : r.ticker ∈ tickersOf data := by
    unfold tickersOf
    rw [mem_dedupFirst]
    exact List.mem_map_of_mem (fun r => r.ticker) hr
  exact filter_map_betas svc _ _ hnd hmem

theorem filter_map_eq {α β : Type} (g : α → β) (p : β → Bool) (l : List α) :
    (l.map g).filter p = (l.filter (fun x => p (g x))).map g := by
  induction l with
  | nil => rfl
  | cons a l ih =>
    simp only [List.map_cons, List.filter_cons]
    by_cases h : p (g a)
    · rw [if_pos h, if_pos h, List.map_cons, ih]
    · rw [if_neg h, if_neg h, ih]

theorem length_filter_le_one {α β : Type} [BEq β] [LawfulBEq β] (f : α → β)
    (l : List α) (b : β) (h : (l.map f).Nodup) :
    (l.filter (fun a => f a == b)).length ≤ 1 := by
  induction l with
  | nil => simp
  | cons a l ih =>
    rw [List.map_cons, List.nodup_cons] at h
    obtain ⟨ha, hl⟩ := h
    rw [List.filter_cons]
    by_cases hb : (f a == b) = true
    · rw [if_pos hb]
      have hnil : l.filter (fun a => f a == b) = [] := by
        rw [List.filter_eq_nil_iff]
        intro x hx
        simp only [beq_iff_eq]
        intro he
        have hfb : f a = b := by simpa using hb
        have hfx : f a = f x := by rw [he, hfb]
        exact ha (hfx ▸ List.mem_map_of_mem f hx)
      simp [hnil]
    · rw [if_neg hb]
      exact ih hl

theorem dropDuplicatesAux_key_nodup (seen : List (String × Int))
    (rows : List Row) :
    ((dropDuplicatesAux seen rows).map Row.key).Nodup ∧
      ∀ r ∈ dropDuplicatesAux seen rows, r.key ∉ seen := by
  induction rows generalizing seen with
  | nil => simp [dropDuplicatesAux]
  | cons r rs ih =>
    simp only [dropDuplicatesAux]
    by_cases h : r.key ∈ seen
    · rw [if_pos h]
      exact ih seen
    · rw [if_neg h]
      obtain ⟨h1, h2⟩ := ih (r.key :: seen)
      refine ⟨?_, ?_⟩
      · rw [List.map_cons, List.nodup_cons]
        refine ⟨fun hm => ?_, h1⟩
        rcases List.mem_map.1 hm with ⟨x, hx, he⟩
        exact h2 x hx (by rw [he]; exact List.mem_cons_self _ _)
      · intro x hx
        rcases List.mem_cons.1 hx with rfl | hx2
        · exact h
        · exact fun hs => h2 x hx2 (List.mem_cons_of_mem _ hs)

theorem dropDuplicates_key_nodup (rows : List Row) :
    ((dropDuplicates rows).map Row.key).Nodup :=
  (dropDuplicatesAux_key_nodup [] rows).1

/-- The (ticker, date) keys of the cleaned table are those of the prepared
table, which in turn are a sublist of the deduplicated raw table's keys. -/
theorem clean_data_keys_nodup (svc : String → Except String (Option ℚ))
    (data : List Row) :
    ((clean_data svc data).map (fun r : CleanRow => (r.ticker, r.date))).Nodup := by
  have hmaps : (clean_data svc data).map (fun r : CleanRow => (r.ticker, r.date))
      = ((dropDuplicates data).filter
          (fun r => r.stock_price.isSome && r.shrout.isSome)).map Row.key := by
    rw [clean_data_eq_map]
    unfold prepare
    simp [List.map_map, Function.comp, mkClean, addMarketCap, Row.key]
  rw [hmaps]
  exact ((List.filter_sublist _).map Row.key).nodup (dropDuplicates_key_nodup data)

theorem betaResult_congr (svc1 svc2 : String → Except String (Option ℚ))
    (h : ∀ t, svc1 t = svc2 t) (t : String) :
    betaResult svc1 t = betaResult svc2 t := by
  unfold betaResult
  rw [h t]

theorem fetch_betas_congr (svc1 svc2 : String → Except String (Option ℚ))
    (h : ∀ t, svc1 t = svc2 t) (ts : List String) :
    fetch_betas svc1 ts = fetch_betas svc2 ts := by
  unfold fetch_betas
  have hgen : ∀ (l : List String) (d : List BetaRow),
      l.foldl (fun d t => insertBeta d t (betaResult svc1 t)) d
        = l.foldl (fun d t => insertBeta d t (betaResult svc2 t)) d := by
    intro l
    induction l with
    | nil => intro d; rfl
    | cons t l ih =>
      intro d
      simp only [List.foldl_cons]
      rw [betaResult_congr svc1 svc2 h t]
      exact ih _
  exact hgen ts []

theorem clean_data_congr (svc1 svc2 : String → Except String (Option ℚ))
    (h : ∀ t, svc1 t = svc2 t) (data : List Row) :
    clean_data svc1 data = clean_data svc2 data := by
  unfold clean_data
  rw [fetch_betas_congr svc1 svc2 h]

/-- A successful beta-table build requires every requested ticker to have at
least one matching row (the converse fails: an object-dtype `None` cell makes
the build raise even when every ticker has rows). -/
theorem betaTable_ok_rows (objectCol : Bool) (sd : List CleanRow)
    (l : List String) (hok : isOkE (betaTable objectCol sd l) = true) :
    ∀ u ∈ l, sd.filter (fun r => r.ticker == u) ≠ [] := by
  induction l with
  | nil => simp
  | cons t ts ih =>
    revert hok
    simp only [betaTable]
    cases hft : sd.filter (fun r => r.ticker == t) with
    | nil =>
      intro hok
      simp [isOkE] at hok
    | cons r rs =>
      dsimp only
      by_cases hoc : (objectCol && r.beta.isNone) = true
      · rw [if_pos hoc]
        intro hok
        simp [isOkE] at hok
      · rw [if_neg hoc]
        intro hok u hu
        have hrest : isOkE (betaTable objectCol sd ts) = true := by
          cases hbt : betaTable objectCol sd ts with
          | error e =>
            rw [hbt] at hok
            simp [isOkE, Except.map] at hok
          | ok bt => rfl
        rcases List.mem_cons.1 hu with rfl | hu2
        · rw [hft]
          simp
        · exact ih hrest u hu2

theorem runStartup_cached (env : Env) (c : List Row) (h : env.cache = some c) :
    runStartup env
      = (clean_data env.svc c,
         Effect.cacheRead :: (tickersOf c).map Effect.betaLookup) := by
  unfold runStartup get_or_download_data
  rw [h]
  rfl

/-! Section: Claim theorems -/

/-- C2: every row retained by `clean_data` has
`market_cap = stock_price * shrout * 1000`. -/
theorem clean_data_market_cap (svc : String → Except String (Option ℚ))
    (data : List Row) (r : CleanRow) (hr : r ∈ clean_data svc data) :
    ∃ p s, r.stock_price = some p ∧ r.shrout = some s ∧
      r.market_cap = some (p * s * 1000) := by
  rw [clean_data_eq_map] at hr
  rcases List.mem_map.1 hr with ⟨q, hq, rfl⟩
  unfold prepare at hq
  rcases List.mem_map.1 hq with ⟨w, hw, rfl⟩
  obtain ⟨hwmem, hcond⟩ := List.mem_filter.1 hw
  simp only [Bool.and_eq_true, Option.isSome_iff_exists] at hcond
  obtain ⟨⟨p, hp⟩, ⟨s, hs⟩⟩ := hcond
  exact ⟨p, s, by simp [mkClean, addMarketCap, hp],
    by simp [mkClean, addMarketCap, hs],
    by simp [mkClean, addMarketCap, hp, hs]⟩

/-- Evaluation of the cleaning pipeline on the sample table. -/
theorem clean_data_sample_eval :
    clean_data (svcConst (some 1)) sampleData = [sampleCleanRow, sampleCleanRow2] :=
  rfl

/-- Concrete instance of `clean_data_market_cap`. -/
theorem clean_data_market_cap_witness :
    sampleCleanRow ∈ clean_data (svcConst (some 1)) sampleData ∧
    ∃ p s, sampleCleanRow.stock_price = some p ∧
      sampleCleanRow.shrout = some s ∧
      sampleCleanRow.market_cap = some (p * s * 1000) :=
  ⟨by rw [clean_data_sample_eval]; exact List.mem_cons_self _ _,
    clean_data_market_cap _ _ _
      (by rw [clean_data_sample_eval]; exact List.mem_cons_self _ _)⟩

/-- C3: the cleaned table has at most one row per (ticker, date) pair. -/
theorem clean_data_key_at_most_one (svc : String → Except String (Option ℚ))
    (data : List Row) (t : String) (d : Int) :
    ((clean_data svc data).filter
        (fun r => (r.ticker, r.date) == (t, d))).length ≤ 1 :=
  length_filter_le_one (fun r : CleanRow => (r.ticker, r.date)) _ (t, d)
    (clean_data_keys_nodup svc data)

/-- C4: no cleaned row has a null stock_price or a null shrout. -/
theorem clean_data_no_null_price_shrout (svc : String → Except String (Option ℚ))
    (data : List Row) (r : CleanRow) (hr : r ∈ clean_data svc data) :
    r.stock_price ≠ none ∧ r.shrout ≠ none := by
  rw [clean_data_eq_map] at hr
  rcases List.mem_map.1 hr with ⟨q, hq, rfl⟩
  unfold prepare at hq
  rcases List.mem_map.1 hq with ⟨w, hw, rfl⟩
  obtain ⟨hwmem, hcond⟩ := List.mem_filter.1 hw
  simp only [Bool.and_eq_true, Option.isSome_iff_exists] at hcond
  obtain ⟨⟨p, hp⟩, ⟨s, hs⟩⟩ := hcond
  constructor <;> simp [mkClean, addMarketCap, hp, hs]

/-- Concrete instance of `clean_data_no_null_price_shrout`. -/
theorem clean_data_no_null_price_shrout_witness :
    sampleCleanRow ∈ clean_data (svcConst (some 1)) sampleData ∧
    (sampleCleanRow.stock_price ≠ none ∧ sampleCleanRow.shrout ≠ none) :=
  ⟨by rw [clean_data_sample_eval]; exact List.mem_cons_self _ _,
    clean_data_no_null_price_shrout _ _ _
      (by rw [clean_data_sample_eval]; exact List.mem_cons_self _ _)⟩

/-- C5: a ticker whose beta lookup raises or returns no beta field still gets
a `fetch_betas` entry with a null beta, and after the left merge its rows are
all still present, unchanged except for the null beta. -/
theorem beta_failure_nonfatal (svc : String → Except String (Option ℚ))
    (data : List Row) (t : String) (hfail : betaResult svc t = none) :
    (t ∈ tickersOf data →
      (⟨t, none⟩ : BetaRow) ∈ fetch_betas svc (tickersOf data)) ∧
    (clean_data svc data).filter (fun r => r.ticker == t)
      = ((prepare data).filter (fun r => r.ticker == t)).map
          (fun r => mkClean r none) := by
  have hnd : (tickersOf data).Nodup := nodup_dedupFirst _
  constructor
  · intro ht
    rw [fetch_betas_eq_map svc (tickersOf data) hnd]
    exact List.mem_map.2 ⟨t, ht, by simp [hfail]⟩
  · rw [clean_data_eq_map, filter_map_eq]
    have h1 : (prepare data).filter
          (fun x => ((mkClean x (betaResult svc x.ticker)).ticker == t))
        = (prepare data).filter (fun r => r.ticker == t) :=
      List.filter_congr (fun x _ => rfl)
    rw [h1]
    apply List.map_congr_left
    intro x hx
    obtain ⟨hxm, hxt⟩ := List.mem_filter.1 hx
    have hxe : x.ticker = t := by simpa using hxt
    rw [hxe, hfail]

/-- Concrete instance of `beta_failure_nonfatal`: every lookup raises. -/
theorem beta_failure_nonfatal_witness :
    betaResult svcFail "AAPL" = none ∧
    (("AAPL" ∈ tickersOf sampleData →
        (⟨"AAPL", none⟩ : BetaRow) ∈ fetch_betas svcFail (tickersOf sampleData)) ∧
     (clean_data svcFail sampleData).filter (fun r => r.ticker == "AAPL")
       = ((prepare sampleData).filter (fun r => r.ticker == "AAPL")).map
           (fun r => mkClean r none)) :=
  ⟨rfl, beta_failure_nonfatal svcFail sampleData "AAPL" rfl⟩

/-- C8: beta is a per-ticker scalar in the cleaned table: rows with the same
ticker carry the same beta, regardless of date. -/
theorem clean_data_beta_per_ticker (svc : String → Except String (Option ℚ))
    (data : List Row) (r1 r2 : CleanRow) (h1 : r1 ∈ clean_data svc data)
    (h2 : r2 ∈ clean_data svc data) (ht : r1.ticker = r2.ticker) :
    r1.beta = r2.beta := by
  rw [clean_data_eq_map] at h1 h2
  rcases List.mem_map.1 h1 with ⟨a, _, rfl⟩
  rcases List.mem_map.1 h2 with ⟨b, _, rfl⟩
  simp only [mkClean] at ht ⊢
  rw [ht]

/-- Concrete instance of `clean_data_beta_per_ticker`: two dates, one beta. -/
theorem clean_data_beta_per_ticker_witness :
    sampleCleanRow ∈ clean_data (svcConst (some 1)) sampleData ∧
    sampleCleanRow2 ∈ clean_data (svcConst (some 1)) sampleData ∧
    sampleCleanRow.ticker = sampleCleanRow2.ticker ∧
    sampleCleanRow.beta = sampleCleanRow2.beta :=
  ⟨by rw [clean_data_sample_eval]; exact List.mem_cons_self _ _,
    by rw [clean_data_sample_eval]; exact List.mem_cons_of_mem _ (List.mem_cons_self _ _),
    rfl,
    clean_data_beta_per_ticker _ _ _ _
      (by rw [clean_data_sample_eval]; exact List.mem_cons_self _ _)
      (by rw [clean_data_sample_eval]; exact List.mem_cons_of_mem _ (List.mem_cons_self _ _))
      rfl⟩

/-- C10: `fetch_betas` yields exactly one row per distinct ticker (its rows'
tickers are exactly the distinct input list), and the left merge changes no
pre-existing column and preserves the row count: stripping the merged beta
column gives back exactly the prepared table. -/
theorem fetch_betas_one_row_merge_frame (svc : String → Except String (Option ℚ))
    (ts : List String) (data : List Row) (h : ts.Nodup) :
    (fetch_betas svc ts).map (fun b => b.ticker) = ts ∧
    (clean_data svc data).map eraseBeta = prepare data ∧
    (clean_data svc data).length = (prepare data).length := by
  refine ⟨?_, ?_, ?_⟩
  · rw [fetch_betas_eq_map svc ts h, List.map_map]
    have hcomp : ((fun b : BetaRow => b.ticker)
        ∘ fun t => (⟨t, betaResult svc t⟩ : BetaRow)) = id := by
      funext x
      rfl
    rw [hcomp, List.map_id]
  · rw [clean_data_eq_map, List.map_map]
    have hfun : eraseBeta ∘ (fun r => mkClean r (betaResult svc r.ticker)) = id := by
      funext r
      rfl
    rw [hfun, List.map_id]
  · rw [clean_data_eq_map, List.length_map]

/-- Concrete instance of `fetch_betas_one_row_merge_frame`. -/
theorem fetch_betas_one_row_merge_frame_witness :
    (["AAPL"] : List String).Nodup ∧
    ((fetch_betas (svcConst (some 1)) ["AAPL"]).map (fun b => b.ticker)
        = ["AAPL"] ∧
     (clean_data (svcConst (some 1)) sampleData).map eraseBeta
        = prepare sampleData ∧
     (clean_data (svcConst (some 1)) sampleData).length
        = (prepare sampleData).length) :=
  ⟨by decide,
    fetch_betas_one_row_merge_frame (svcConst (some 1)) ["AAPL"] sampleData
      (by decide)⟩

/-- C6: with no tickers selected (`None` or the empty list),
`update_dashboard` returns the sector averages computed over all rows of the
sector together with two empty figures, and raises no error. -/
theorem update_dashboard_no_selection (table : List CleanRow) (sector : String)
    (sts : List String) (sel : Option (List String))
    (hs : sectorLookup sector = some sts) (hsel : sel.getD [] = []) :
    update_dashboard table sector sel
      = .ok ⟨mkAverages (sectorData table sts), none, .empty, .empty⟩ := by
  unfold update_dashboard
  rw [hs, hsel]

/-- Concrete instance of `update_dashboard_no_selection`. -/
theorem update_dashboard_no_selection_witness :
    sectorLookup "Technology" = some techTickers ∧
    (some ([] : List String)).getD [] = [] ∧
    update_dashboard sampleTable "Technology" (some [])
      = .ok ⟨mkAverages (sectorData sampleTable techTickers), none,
             .empty, .empty⟩ :=
  ⟨rfl, rfl,
    update_dashboard_no_selection sampleTable "Technology" techTickers
      (some []) rfl rfl⟩

/-- C7: the ticker dropdown's options for a sector are exactly that sector's
members, in the sector's defined order, and the sector dropdown's default
value is the first sector of the static table. -/
theorem update_ticker_dropdown_members (sector : String)
    (members : List String) (hs : sectorLookup sector = some members) :
    update_ticker_dropdown sector = .ok (members.map (fun t => ⟨t, t⟩)) ∧
    (members.map (fun t => (⟨t, t⟩ : DDOption))).map (fun o => o.value)
      = members ∧
    defaultSectorValue = "Technology" := by
  refine ⟨?_, ?_, rfl⟩
  · unfold update_ticker_dropdown
    rw [hs]
  · rw [List.map_map]
    have hcomp : ((fun o : DDOption => o.value) ∘ fun t => (⟨t, t⟩ : DDOption))
        = id := by
      funext t
      rfl
    rw [hcomp, List.map_id]

/-- Concrete instance of `update_ticker_dropdown_members`. -/
theorem update_ticker_dropdown_members_witness :
    sectorLookup "Technology" = some techTickers ∧
    (update_ticker_dropdown "Technology"
        = .ok (techTickers.map (fun t => ⟨t, t⟩)) ∧
     (techTickers.map (fun t => (⟨t, t⟩ : DDOption))).map (fun o => o.value)
        = techTickers ∧
     defaultSectorValue = "Technology") :=
  ⟨rfl, update_ticker_dropdown_members "Technology" techTickers rfl⟩

/-- C9: with a non-empty selection, if some selected ticker has no row in the
sector-restricted table, `update_dashboard` fails instead of rendering (the
positional first-element access on the empty selection raises); and rendering
succeeds only when every selected ticker has at least one such row.  Success
is not guaranteed by row presence alone: the beta-cell formatting can still
raise on an object-dtype `None` beta. -/
theorem update_dashboard_fails_on_missing_rows (table : List CleanRow)
    (sector : String) (sts : List String) (t : String) (ts : List String)
    (hs : sectorLookup sector = some sts) :
    ((∃ u ∈ t :: ts,
        (sectorData table sts).filter (fun r => r.ticker == u) = []) →
      isOkE (update_dashboard table sector (some (t :: ts))) = false) ∧
    (isOkE (update_dashboard table sector (some (t :: ts))) = true →
      ∀ u ∈ t :: ts,
        (sectorData table sts).filter (fun r => r.ticker == u) ≠ []) := by
  have hexp : isOkE (update_dashboard table sector (some (t :: ts)))
      = isOkE (betaTable (betaColumnObject table) (sectorData table sts)
          (t :: ts)) := by
    unfold update_dashboard
    rw [hs]
    dsimp only [Option.getD_some]
    cases hb : betaTable (betaColumnObject table) (sectorData table sts)
        (t :: ts) with
    | error e => simp [isOkE]
    | ok bt => simp [isOkE]
  have hdir : isOkE (update_dashboard table sector (some (t :: ts))) = true →
      ∀ u ∈ t :: ts,
        (sectorData table sts).filter (fun r => r.ticker == u) ≠ [] := by
    intro hok
    rw [hexp] at hok
    exact betaTable_ok_rows _ _ _ hok
  refine ⟨?_, hdir⟩
  rintro ⟨u, hu, hempty⟩
  cases hok : isOkE (update_dashboard table sector (some (t :: ts))) with
  | false => rfl
  | true => exact absurd hempty (hdir hok u hu)

/-- Concrete instance of `update_dashboard_fails_on_missing_rows`. -/
theorem update_dashboard_fails_on_missing_rows_witness :
    sectorLookup "Technology" = some techTickers ∧
    (((∃ u ∈ ["AAPL"],
        (sectorData sampleTable techTickers).filter
          (fun r => r.ticker == u) = []) →
      isOkE (update_dashboard sampleTable "Technology" (some ["AAPL"]))
        = false) ∧
     (isOkE (update_dashboard sampleTable "Technology" (some ["AAPL"]))
        = true →
      ∀ u ∈ ["AAPL"],
        (sectorData sampleTable techTickers).filter
          (fun r => r.ticker == u) ≠ [])) :=
  ⟨rfl,
    update_dashboard_fails_on_missing_rows sampleTable "Technology"
      techTickers "AAPL" [] rfl⟩

/-- C1 as stated fails on the code: even with an existing cache file, every
run performs one beta lookup per distinct ticker during cleaning (a network
call), and two such runs produce different cleaned tables as soon as the
beta service answers differently. -/
theorem startup_cached_rerun_not_networkless :
    env1.cache.isSome = true ∧ env2.cache = env1.cache ∧
    (runStartup env1).1 ≠ (runStartup env2).1 ∧
    ¬(((runStartup env1).1 = (runStartup env2).1) ∧
      ∀ e ∈ (runStartup env1).2, networkEffect e = false) := by
  refine ⟨rfl, rfl, ?_, ?_⟩
  · intro h
    have h1 : (runStartup env1).1 = [cachedCleanFail] := rfl
    have h2 : (runStartup env2).1 = [cachedClean2] := rfl
    rw [h1, h2] at h
    simp [cachedCleanFail, cachedClean2] at h
  · rintro ⟨houtput, hnet⟩
    have hmem : Effect.betaLookup "AAPL" ∈ (runStartup env1).2 := by
      have he : (runStartup env1).2
          = [Effect.cacheRead, Effect.betaLookup "AAPL"] := rfl
      rw [he]
      simp
    have hcontra := hnet _ hmem
    simp [networkEffect] at hcontra

/-- C1 amended: with an existing cache file, startup performs no warehouse
connection, no warehouse query and no cache write (acquisition is a pure
cache read), and two runs over the same cache whose beta services answer
identically produce the same cleaned table and the same rendered output for
every UI selection.  The per-ticker beta lookups still occur on every run. -/
theorem startup_cached_no_warehouse_deterministic (e1 e2 : Env) (c : List Row)
    (h1 : e1.cache = some c) (h2 : e2.cache = some c)
    (hsvc : ∀ t, e1.svc t = e2.svc t) :
    (runStartup e1).1 = (runStartup e2).1 ∧
    Effect.warehouseConnect ∉ (runStartup e1).2 ∧
    Effect.warehouseQuery ∉ (runStartup e1).2 ∧
    Effect.cacheWrite ∉ (runStartup e1).2 ∧
    ∀ sector sel, update_dashboard (runStartup e1).1 sector sel
        = update_dashboard (runStartup e2).1 sector sel := by
  have r1 := runStartup_cached e1 c h1
  have r2 := runStartup_cached e2 c h2
  have hout : (runStartup e1).1 = (runStartup e2).1 := by
    rw [r1, r2]
    exact clean_data_congr e1.svc e2.svc hsvc c
  refine ⟨hout, ?_, ?_, ?_, fun sector sel => by rw [hout]⟩
  · rw [r1]
    simp
  · rw [r1]
    simp
  · rw [r1]
    simp

/-- Concrete instance of `startup_cached_no_warehouse_deterministic`. -/
theorem startup_cached_no_warehouse_deterministic_witness :
    env1.cache = some [sampleRow] ∧
    (∀ t, env1.svc t = env1.svc t) ∧
    ((runStartup env1).1 = (runStartup env1).1 ∧
     Effect.warehouseConnect ∉ (runStartup env1).2 ∧
     Effect.warehouseQuery ∉ (runStartup env1).2 ∧
     Effect.cacheWrite ∉ (runStartup env1).2 ∧
     ∀ sector sel, update_dashboard (runStartup env1).1 sector sel
         = update_dashboard (runStartup env1).1 sector sel) :=
  ⟨rfl, fun _ => rfl,
    startup_cached_no_warehouse_deterministic env1 env1 [sampleRow] rfl rfl
      (fun _ => rfl)⟩

end Dashboard
